import Mathlib

/-!
Shallow embedding of the orchestration layer of `cellSNP/cellSNP.py`
(the `main` function): barcode loading, partitioning into tasks
(whole-genome mode: one task per chromosome; targeted mode: contiguous
index blocks over the candidate-variant arrays), temp-file naming,
dispatch through a worker pool, result collection and the final merge.

The external collaborators (`pileup_regions`, `fetch_positions`,
`parse_vcf_file`, `merge_vcf` from the `utils` package) are not part of
the file under `src/`; where their behaviour matters it is modelled from
the spec and marked as such.  Python strings are embedded as Lean
`String`; the Python string operations used by the source
(`str.rstrip`, `str.split`, `sorted`, the `%s`/`%d` format specifiers)
are embedded as structural functions over `List Char` / `Nat` so that
all definitions evaluate by kernel reduction.
-/

namespace CellSNP

/-- Python `str.rstrip()`: drop trailing whitespace characters. -/
def rstripChars (cs : List Char) : List Char :=
  ((cs.reverse).dropWhile Char.isWhitespace).reverse

/-- Python `s.split("-")[0]`: the characters before the first `-`
(the whole string when no `-` occurs; `split` never returns an empty
list, so the index `[0]` is always defined). -/
def takeUntilDash : List Char → List Char
  | [] => []
  | c :: cs => if c = '-' then [] else c :: takeUntilDash cs

/-- Line 77: `x.rstrip().split("-")[0]` applied to one raw input line. -/
def barcodeOf (line : String) : String :=
  ⟨takeUntilDash (rstripChars line.data)⟩

/-- Lexicographic comparison of character lists by code point, the order
Python `sorted` uses on `str`. -/
def charListLe : List Char → List Char → Bool
  | [], _ => true
  | _ :: _, [] => false
  | a :: as, b :: bs =>
    if a.toNat < b.toNat then true
    else if b.toNat < a.toNat then false
    else charListLe as bs

def strLe (a b : String) : Bool := charListLe a.data b.data

/-- Lines 76-79: `barcodes = [x.rstrip().split("-")[0] for x in
fid.readlines()]` followed by `barcodes = sorted(barcodes)`.
Python `sorted` is an ascending stable sort; on strings, equal keys are
identical, so any sort ascending w.r.t. `strLe` has the same value. -/
def loadBarcodes (lines : List String) : List String :=
  List.insertionSort (fun a b => strLe a b = true) (lines.map barcodeOf)

/-- Terminal state of one dispatched task (the external engine either
returns normally or raises). -/
inductive TaskStatus where
  | success
  | failed (reason : String)
deriving DecidableEq

def TaskStatus.isFailed : TaskStatus → Bool
  | .failed _ => true
  | .success => false

/-- Line 140: `chr_out_file = out_file + ".temp_%s_" % (_chrom)`. -/
def chr_out_file (out_file chrom : String) : String :=
  out_file ++ ".temp_" ++ chrom ++ "_"

/-- Line 164: `out_file_tmp = out_file + ".temp_%d_" % (ii)`; `%d` of a
nonnegative int is its decimal representation, embedded as `Nat.repr`. -/
def out_file_tmp (out_file : String) (ii : Nat) : String :=
  out_file ++ ".temp_" ++ Nat.repr ii ++ "_"

/-- Lines 122-125: the chromosome list, defaulting to
`[str(x) for x in range(1, 23)]` when `--chrom` is not given, else the
comma-separated override.  The override split is modelled on the
char-list level (`sepBySplit` below) because `String.splitOn` does not
reduce in the kernel. -/
def splitOnCommaAux (cur : List Char) : List Char → List String
  | [] => [⟨cur.reverse⟩]
  | c :: cs =>
    if c = ',' then ⟨cur.reverse⟩ :: splitOnCommaAux [] cs
    else splitOnCommaAux (c :: cur) cs

def splitOnComma (s : String) : List String :=
  splitOnCommaAux [] s.data

def chrom_all_default : List String :=
  (List.range' 1 22).map (fun x => Nat.repr x)

def chrom_all_of : Option String → List String
  | none => chrom_all_default
  | some s => splitOnComma s

/-- One unit of work in whole-genome mode (lines 139-144 / 149-154):
the chromosome name is the partition key and the temp file is derived
from it. -/
structure ChromTask where
  chrom : String
  tempFile : String
deriving DecidableEq

/-- Lines 137-155: one task per chromosome of `chrom_all`, in list
order. -/
def wholeGenomeTasks (out_file : String) (chrom_all : List String) : List ChromTask :=
  chrom_all.map (fun c => ⟨c, chr_out_file out_file c⟩)

/-- One unit of work in targeted mode (lines 163-177): the task index,
its temp file, and the half-open index range `[lo, hi)` into the
candidate-variant arrays that is sliced for it. -/
structure RangeTask where
  idx : Nat
  tempFile : String
  lo : Nat
  hi : Nat
deriving DecidableEq

/-- Lines 161-172: `LEN_div = int(len(vcf_RV["chrom"]) / nproc)`; task
`ii` receives the slice `[LEN_div*ii : LEN_div*(ii+1)]`, except the last
task `nproc - 1`, which receives `[LEN_div*ii : len(pos_list)]`.
`int(L / N)` on nonnegative ints is floor division, i.e. `Nat` `/`. -/
def targetedTasks (out_file : String) (L nproc : Nat) : List RangeTask :=
  (List.range nproc).map (fun ii =>
    if ii = nproc - 1 then
      ⟨ii, out_file_tmp out_file ii, L / nproc * ii, L⟩
    else
      ⟨ii, out_file_tmp out_file ii, L / nproc * ii, L / nproc * (ii + 1)⟩)

/-- Python slice `xs[a : b]` for `0 ≤ a ≤ b` (clamping at the ends). -/
def pySlice {α : Type} (xs : List α) (a b : Nat) : List α :=
  (xs.take b).drop a

/-! ### Worker pool, result collection and merge

`pool.apply_async` (lines 142-145, 174-177) returns a result handle per
task, appended to `result` in dispatch order, while `out_files` collects
the temp paths in the same order.  After `pool.close(); pool.join()`,
`res.get()` is called on the handles in dispatch order (lines 156, 181)
and re-raises the exception of the first failed task, in which case
control never reaches `merge_vcf(out_file, out_files)` (line 186).  The
physical completion order of the workers is modelled as an explicit
permutation of the task indices; a handle lookup retrieves the result of
its own task from the completion sequence. -/

/-- The completion sequence of the pool: the outcomes of the tasks, in
the (arbitrary) order `complOrder` in which the workers finish. -/
def asyncEvents (outcome : Nat → TaskStatus) (complOrder : List Nat) :
    List (Nat × TaskStatus) :=
  complOrder.map (fun i => (i, outcome i))

/-- `res.get()` for the handle of task `i`: its result from the
completion sequence (a task that never completed would block; the value
chosen for that case is irrelevant once `complOrder` covers all
tasks). -/
def resGet (events : List (Nat × TaskStatus)) (i : Nat) : TaskStatus :=
  (events.lookup i).getD (.failed "lost")

/-- Lines 156 / 181: `result = [res.get() for res in result]`, with the
handles in dispatch order. -/
def collectedResults (n : Nat) (events : List (Nat × TaskStatus)) :
    List TaskStatus :=
  (List.range n).map (resGet events)

/-- Modelled from the spec: `merge_vcf` (from `utils/run_utils.py`, not
under `src/`) streams the records of the partial files into the final
file in the order of its path-list argument, under one header. -/
def merge_vcf_records (contents : String → List String)
    (out_files : List String) : List String :=
  (out_files.map contents).flatten

/-- Observable result of one complete pooled run, lines 156-186: either
the job raises at the first failed `res.get()` (no merge), or every task
succeeded and `merge_vcf` receives the dispatch-ordered path list. -/
structure JobRun where
  mergerPaths : Option (List String)
  mergedRecords : Option (List String)
deriving DecidableEq

def runWithCompletion (out_files : List String)
    (outcome : Nat → TaskStatus) (contents : String → List String)
    (complOrder : List Nat) : JobRun :=
  let events := asyncEvents outcome complOrder
  let results := collectedResults out_files.length events
  if results.any TaskStatus.isFailed then
    ⟨none, none⟩
  else
    ⟨some out_files, some (merge_vcf_records contents out_files)⟩

/-- Filesystem-level outcome of the post-dispatch phase (lines 156-186):
whether `merge_vcf` ran, whether the final output file was written, and
which temp files remain on disk.  `producedTemps` lists the temp files
the dispatched tasks actually wrote (the engine is external, so this is
a parameter).  On the failure path `main` raises out of the `res.get()`
list comprehension: `merge_vcf` is never reached and no code in `main`
removes any file.  On the success path `merge_vcf` is modelled from the
spec: it writes the final file and deletes every partial. -/
structure FsOutcome where
  mergeInvoked : Bool
  finalCreated : Bool
  tempsOnDisk : List String
  raised : Bool
deriving DecidableEq

def collectAndMerge (results : List TaskStatus)
    (producedTemps : List String) : FsOutcome :=
  if results.any TaskStatus.isFailed then
    ⟨false, false, producedTemps, true⟩
  else
    ⟨true, true, [], false⟩

/-- Line 137 versus line 162: in whole-genome mode a
`multiprocessing.Pool` is created only under `if nproc > 1`; in targeted
mode (`region_file` given) the pool is created unconditionally, also for
`nproc == 1`. -/
def usesPool (regionGiven : Bool) (nproc : Nat) : Bool :=
  if regionGiven then true else decide (1 < nproc)

/-- Artifacts of one whole-genome run: the accumulated `out_files`, the
engine invocations in order, whether an exception was raised, and the
merged records (when `merge_vcf` ran). -/
structure WgRun where
  out_files : List String
  calls : List ChromTask
  raised : Bool
  merged : Option (List String)
deriving DecidableEq

/-- Lines 137-147 and 156-186, `nproc > 1`: every task is dispatched to
the pool (`out_files` complete), then the `res.get()` pass raises if any
task failed, else `merge_vcf` runs. -/
def wgPooled (out_file : String) (chrom_all : List String)
    (engine : ChromTask → TaskStatus) (contents : String → List String) :
    WgRun :=
  let tasks := wholeGenomeTasks out_file chrom_all
  let outs := tasks.map (fun t => t.tempFile)
  if (tasks.map engine).any TaskStatus.isFailed then
    ⟨outs, tasks, true, none⟩
  else
    ⟨outs, tasks, false, some (merge_vcf_records contents outs)⟩

/-- The sequential loop of lines 149-155: each chromosome in turn has
its temp path appended to `out_files` and `pileup_regions` called
directly on the caller; an engine failure raises there, ending the
loop. -/
def wgSeqLoop (engine : ChromTask → TaskStatus) :
    List ChromTask → List String × List ChromTask × Bool
  | [] => ([], [], false)
  | t :: ts =>
    match engine t with
    | .failed _ => ([t.tempFile], [t], true)
    | .success =>
      let rest := wgSeqLoop engine ts
      (t.tempFile :: rest.1, t :: rest.2.1, rest.2.2)

/-- Lines 137, 148-158, 186, `nproc == 1`: sequential execution followed
by the same merge. -/
def wgSequential (out_file : String) (chrom_all : List String)
    (engine : ChromTask → TaskStatus) (contents : String → List String) :
    WgRun :=
  let tasks := wholeGenomeTasks out_file chrom_all
  let r := wgSeqLoop engine tasks
  if r.2.2 then
    ⟨r.1, r.2.1, true, none⟩
  else
    ⟨r.1, r.2.1, false, some (merge_vcf_records contents r.1)⟩

/-- Lines 100-106: resolution of the `--regionsVCF` option.  The literal
string value `"None"` is folded into the absent case before the
existence check; otherwise the path is checked and, when present, handed
to `parse_vcf_file`. -/
inductive RegionResolution where
  | wholeGenome
  | missingFile (path : String)
  | targeted (path : String)
deriving DecidableEq

def resolveRegionFile (isFile : String → Bool) :
    Option String → RegionResolution
  | none => .wholeGenome
  | some rf =>
    if rf = "None" then .wholeGenome
    else if isFile rf = false then .missingFile rf
    else .targeted rf

/-! ### The entry point `main`

A trace model of `main` (lines 62-190): the observable actions, in
program order, together with the way the process ends.  Option parsing
itself (optparse) is pure; the parsed option record is the `Opts`
parameter.  Ambient wall-clock timing (lines 16, 188-190) has no
observable effect beyond the final progress message and is represented
by that message only.  The filter thresholds (`min_COUNT`, `min_MAF`,
`min_LEN`, `min_MAPQ`, `max_FLAG`) are passed through unchanged to the
external engine (opaque here) and do not influence the orchestration, so
they are not carried in the task records. -/

inductive Event where
  | printed (msg : String)
  | checkedIsFile (path : String)
  | checkedIsDir (path : String)
  | readBarcodeFile (path : String)
  | parsedVcf (path : String)
  | dispatched (tempFile : String)
  | calledMerge (out : String) (parts : List String)
deriving DecidableEq

inductive Outcome where
  | exited (code : Nat)
  | raised
  | finished
deriving DecidableEq

/-- The option record produced by optparse (lines 26-62). -/
structure Opts where
  out_file : Option String
  sam_file : Option String
  barcode_file : Option String
  region_file : Option String
  nproc : Nat
  chrom_all : Option String
  cell_tag : String
  UMI_tag : String

/-- The ambient world `main` consults: file and directory existence,
`os.path.dirname`, the lines of the barcode file, the common length of
the index-aligned arrays returned by the external `parse_vcf_file`, and
the terminal status of the external engine run that writes a given temp
file. -/
structure World where
  isFile : String → Bool
  isDir : String → Bool
  dirname : String → String
  readLines : String → List String
  vcfLen : String → Nat
  engine : String → TaskStatus

/-- Lines 63-66. -/
def welcomeEvents : List Event :=
  [.printed "Welcome to cellSNP!\n",
   .printed "use -h or --help for help on argument."]

/-- The sequential whole-genome loop of lines 149-155, as events:
dispatch (direct call) per chromosome until the first engine failure
raises. -/
def wgSeqEvents (engine : String → TaskStatus) :
    List ChromTask → List Event × Bool
  | [] => ([], false)
  | t :: ts =>
    match engine t.tempFile with
    | .failed _ => ([.dispatched t.tempFile], true)
    | .success =>
      let rest := wgSeqEvents engine ts
      (.dispatched t.tempFile :: rest.1, rest.2)

/-- Lines 62-190 of `cellSNP.py`: the full trace of `main`. -/
def mainTrace (argv : List String) (opts : Opts) (w : World) :
    List Event × Outcome :=
  if argv.length = 0 then
    (welcomeEvents, .exited 1)
  else
    -- lines 68-80: barcode block
    let bc : List Event × Option (Option (List String)) :=
      match opts.barcode_file with
      | none => ([], some none)
      | some bf =>
        if w.isFile bf = false then
          ([.checkedIsFile bf,
            .printed ("Error: No such file\n    -- " ++ bf)], none)
        else
          ([.checkedIsFile bf, .readBarcodeFile bf,
            .printed ("[cellSNP] " ++
              Nat.repr (loadBarcodes (w.readLines bf)).length ++
              " effective cell barcodes are used.")],
           some (some (loadBarcodes (w.readLines bf))))
    match bc with
    | (evs, none) => (evs, .exited 1)
    | (evs, some _barcodes) =>
      -- lines 82-89: sam block
      match opts.sam_file with
      | none =>
        (evs ++ [.printed "Error: need samFile for sam file."], .exited 1)
      | some sf =>
        if w.isFile sf = false then
          (evs ++ [.checkedIsFile sf,
                   .printed ("Error: No such file\n    -- " ++ sf)],
           .exited 1)
        else
        -- lines 91-98: out block
        match opts.out_file with
        | none =>
          (evs ++ [.checkedIsFile sf,
                   .printed "Error: need outFile for output file path and name."],
           .exited 1)
        | some o =>
          if w.isDir (w.dirname o) = false then
            (evs ++ [.checkedIsFile sf, .checkedIsDir (w.dirname o),
                     .printed ("Error: No such directory for file\n -- " ++ o)],
             .exited 1)
          else
          let evs := evs ++ [.checkedIsFile sf, .checkedIsDir (w.dirname o)]
          -- lines 100-112: region block
          match resolveRegionFile w.isFile opts.region_file with
          | .missingFile rf =>
            (evs ++ [.checkedIsFile rf,
                     .printed ("Error: No such file\n    -- " ++ rf)],
             .exited 1)
          | .wholeGenome =>
            -- lines 114-125 are pure; lines 135-158, 186-190
            let tasks := wholeGenomeTasks o (chrom_all_of opts.chrom_all)
            if 1 < opts.nproc then
              let evs := evs ++ tasks.map (fun t => .dispatched t.tempFile)
              if (tasks.map (fun t => w.engine t.tempFile)).any TaskStatus.isFailed then
                (evs, .raised)
              else
                (evs ++ [.printed "",
                  .printed "[cellSNP] Whole genome pileupped, now merging all variants ...",
                  .calledMerge o (tasks.map (fun t => t.tempFile)),
                  .printed "[cellSNP] All done"], .finished)
            else
              let r := wgSeqEvents w.engine tasks
              if r.2 then (evs ++ r.1, .raised)
              else
                (evs ++ r.1 ++ [.printed "",
                  .printed "[cellSNP] Whole genome pileupped, now merging all variants ...",
                  .calledMerge o (tasks.map (fun t => t.tempFile)),
                  .printed "[cellSNP] All done"], .finished)
          | .targeted rf =>
            -- lines 159-186: the pool is created for any nproc
            let evs := evs ++ [.checkedIsFile rf, .parsedVcf rf,
              .printed ("[cellSNP] " ++ Nat.repr (w.vcfLen rf) ++
                " candidate variants to fetch.")]
            let tasks := targetedTasks o (w.vcfLen rf) opts.nproc
            let evs := evs ++ tasks.map (fun t => .dispatched t.tempFile)
            if (tasks.map (fun t => w.engine t.tempFile)).any TaskStatus.isFailed then
              (evs, .raised)
            else
              (evs ++ [.printed "",
                .printed ("[cellSNP] fetched " ++ Nat.repr (w.vcfLen rf) ++
                  " variants, now merging temp files ... "),
                .calledMerge o (tasks.map (fun t => t.tempFile)),
                .printed "[cellSNP] All done"], .finished)

/-! ### Helper lemmas -/

/-- `Nat.digitChar` is injective below the base 10. -/
lemma digitChar_inj_lt : ∀ a < 10, ∀ b < 10,
    Nat.digitChar a = Nat.digitChar b → a = b := by decide

lemma map_digitChar_inj : ∀ {l₁ l₂ : List Nat}, (∀ d ∈ l₁, d < 10) →
    (∀ d ∈ l₂, d < 10) → l₁.map Nat.digitChar = l₂.map Nat.digitChar →
    l₁ = l₂ := by
  intro l₁
  induction l₁ with
  | nil => intro l₂ _ _ h; cases l₂ <;> simp_all
  | cons a as ih =>
    intro l₂ h₁ h₂ h
    cases l₂ with
    | nil => simp_all
    | cons b bs =>
      simp only [List.map_cons, List.cons.injEq] at h
      have ha : a = b := digitChar_inj_lt a (h₁ a (by simp)) b (h₂ b (by simp)) h.1
      have hb : as = bs :=
        ih (fun d hd => h₁ d (by simp [hd])) (fun d hd => h₂ d (by simp [hd])) h.2
      rw [ha, hb]

/-- The fuel-based `Nat.toDigitsCore` agrees with the mathematical
base-10 digit list as long as the fuel exceeds the argument. -/
lemma toDigitsCore_eq_digits : ∀ (f n : Nat) (ds : List Char), 0 < n → n < f →
    Nat.toDigitsCore 10 f n ds =
      ((Nat.digits 10 n).map Nat.digitChar).reverse ++ ds := by
  intro f
  induction f with
  | zero => intro n ds hn hf; omega
  | succ f ih =>
    intro n ds hn hf
    rw [Nat.digits_def' (by norm_num : (1:Nat) < 10) hn]
    simp only [Nat.toDigitsCore, List.map_cons, List.reverse_cons]
    by_cases h10 : n / 10 = 0
    · rw [if_pos h10, h10, Nat.digits_zero]
      simp
    · rw [if_neg h10]
      have hpos : 0 < n / 10 := Nat.pos_of_ne_zero h10
      have hlt : n / 10 < f :=
        lt_of_lt_of_le (Nat.div_lt_self hn (by norm_num)) (by omega)
      rw [ih (n / 10) (Nat.digitChar (n % 10) :: ds) hpos hlt]
      simp

lemma repr_eq_digits (n : Nat) (hn : 0 < n) :
    Nat.repr n = (((Nat.digits 10 n).map Nat.digitChar).reverse).asString := by
  show (Nat.toDigits 10 n).asString = _
  rw [show Nat.toDigits 10 n = Nat.toDigitsCore 10 (n + 1) n [] from rfl,
    toDigitsCore_eq_digits (n + 1) n [] hn (Nat.lt_succ_self n)]
  simp

/-- `%d` formatting (`Nat.repr`) is injective. -/
lemma Nat_repr_injective : Function.Injective Nat.repr := by
  have key : ∀ n : Nat, 0 < n → Nat.repr n ≠ "0" := by
    intro n hn hcon
    rw [repr_eq_digits n hn] at hcon
    have hdata := congrArg String.data hcon
    simp only [List.asString] at hdata
    have hrev : (Nat.digits 10 n).map Nat.digitChar = ['0'] := by
      have := congrArg List.reverse hdata
      simpa using this
    have hdig : Nat.digits 10 n = [0] := by
      cases hld : Nat.digits 10 n with
      | nil => rw [hld] at hrev; simp at hrev
      | cons d ds =>
        rw [hld] at hrev
        cases ds with
        | nil =>
          simp only [List.map_cons, List.map_nil, List.cons.injEq] at hrev
          have hd10 : d < 10 :=
            Nat.digits_lt_base (by norm_num) (by rw [hld]; simp)
          have : d = 0 := digitChar_inj_lt d hd10 0 (by norm_num) (by
            rw [hrev.1]; rfl)
          rw [this]
        | cons d' ds' => simp at hrev
    have hof := Nat.ofDigits_digits 10 n
    rw [hdig] at hof
    simp [Nat.ofDigits] at hof
    omega
  have h0 : Nat.repr 0 = "0" := rfl
  intro m n h
  rcases Nat.eq_zero_or_pos m with hm | hm
  · rcases Nat.eq_zero_or_pos n with hn | hn
    · omega
    · subst hm
      rw [h0] at h
      exact absurd h.symm (key n hn)
  · rcases Nat.eq_zero_or_pos n with hn | hn
    · subst hn
      rw [h0] at h
      exact absurd h (key m hm)
    · rw [repr_eq_digits m hm, repr_eq_digits n hn] at h
      have hdata := congrArg String.data h
      simp only [List.asString] at hdata
      have hmap : (Nat.digits 10 m).map Nat.digitChar =
          (Nat.digits 10 n).map Nat.digitChar := by
        have := congrArg List.reverse hdata
        simpa using this
      have hdig : Nat.digits 10 m = Nat.digits 10 n :=
        map_digitChar_inj
          (fun d hd => Nat.digits_lt_base (by norm_num) hd)
          (fun d hd => Nat.digits_lt_base (by norm_num) hd) hmap
      exact Nat.digits_inj_iff.mp hdig

/-- Injectivity of enclosing a string between a fixed left and right
context, the shape of the temp-path formulas. -/
lemma wrap_injective (pre suf : String) :
    Function.Injective (fun c : String => pre ++ c ++ suf) := by
  intro c₁ c₂ h
  apply String.ext
  have h' := congrArg String.data h
  simp only [String.data_append] at h'
  exact List.append_cancel_left (List.append_cancel_right h')

lemma chr_out_file_injective (o : String) :
    Function.Injective (chr_out_file o) := by
  intro c₁ c₂ h
  exact wrap_injective (o ++ ".temp_") "_" h

lemma out_file_tmp_injective (o : String) :
    Function.Injective (out_file_tmp o) := by
  intro i₁ i₂ h
  exact Nat_repr_injective (wrap_injective (o ++ ".temp_") "_" h)

/-- Concatenating the `d`-sized blocks `[d*s, d*(s+1)), …` in order
yields one contiguous interval. -/
lemma join_range'_blocks (d : Nat) : ∀ (k s : Nat),
    (((List.range' s k).map (fun i => List.range' (d * i) d)).flatten) =
      List.range' (d * s) (d * k) := by
  intro k
  induction k with
  | zero => intro s; simp
  | succ k ih =>
    intro s
    rw [List.range'_succ]
    simp only [List.map_cons, List.flatten_cons, ih (s + 1)]
    have happ := List.range'_append (d * s) d (d * k) 1
    have h1 : d * s + 1 * d = d * (s + 1) := by ring
    rw [h1] at happ
    rw [show d * (k + 1) = d * k + d from by ring, happ]

/-! ### C1 -/

/-- C1: in TargetedList mode, for every candidate count `L ≥ 0` and
worker count `N ≥ 1`, the index ranges assigned to the `N` tasks,
concatenated in task order, equal the interval `[0, L)` exactly once,
with no overlaps and no omissions. -/
theorem targeted_partition_covers_range (o : String) (L N : Nat) (h : 1 ≤ N) :
    (((targetedTasks o L N).map
        (fun t => List.range' t.lo (t.hi - t.lo))).flatten) = List.range L := by
  have hd : L / N * (N - 1) ≤ L :=
    le_trans (Nat.mul_le_mul_left _ (Nat.sub_le N 1)) (Nat.div_mul_le_self L N)
  have hsplit : List.range N = List.range' 0 (N - 1) ++ [N - 1] := by
    rw [List.range_eq_range', show N = (N - 1) + 1 by omega, List.range'_concat]
    simp
  unfold targetedTasks
  rw [List.map_map, hsplit, List.map_append, List.flatten_append]
  have hsingle :
      ((([N - 1]).map ((fun t : RangeTask => List.range' t.lo (t.hi - t.lo)) ∘
        (fun ii => if ii = N - 1 then
          (⟨ii, out_file_tmp o ii, L / N * ii, L⟩ : RangeTask)
        else
          ⟨ii, out_file_tmp o ii, L / N * ii, L / N * (ii + 1)⟩))).flatten) =
        List.range' (L / N * (N - 1)) (L - L / N * (N - 1)) := by
    simp
  rw [hsingle]
  have hleft : (List.range' 0 (N - 1)).map
      ((fun t : RangeTask => List.range' t.lo (t.hi - t.lo)) ∘
        (fun ii => if ii = N - 1 then
          (⟨ii, out_file_tmp o ii, L / N * ii, L⟩ : RangeTask)
        else
          ⟨ii, out_file_tmp o ii, L / N * ii, L / N * (ii + 1)⟩)) =
      (List.range' 0 (N - 1)).map (fun i => List.range' (L / N * i) (L / N)) := by
    apply List.map_congr_left
    intro i hi
    have hilt : i < N - 1 := by
      rcases List.mem_range'_1.mp hi with ⟨_, h2⟩
      omega
    have hne : i ≠ N - 1 := by omega
    simp only [Function.comp_apply, if_neg hne]
    congr 1
    rw [Nat.mul_succ, Nat.add_sub_cancel_left]
  rw [hleft, join_range'_blocks (L / N) (N - 1) 0, Nat.mul_zero]
  have happ := List.range'_append 0 (L / N * (N - 1)) (L - L / N * (N - 1)) 1
  simp only [Nat.zero_add, Nat.one_mul] at happ
  rw [happ, List.range_eq_range']
  congr 1
  omega

/-- Witness for C1 at `L = 10`, `N = 3`. -/
theorem targeted_partition_covers_range_witness :
    1 ≤ 3 ∧ (((targetedTasks "out.vcf" 10 3).map
      (fun t => List.range' t.lo (t.hi - t.lo))).flatten) = List.range 10 :=
  ⟨by decide, targeted_partition_covers_range "out.vcf" 10 3 (by decide)⟩

/-! ### C4 -/

/-- C4: in TargetedList mode with `L` candidates and `N` workers, tasks
`0 … N-2` each receive exactly `block = ⌊L/N⌋` consecutive indices and
task `N-1` receives `[block*(N-1), L)`; for `L=10, N=3` the range sizes
are `[3,3,4]`; for `L=2, N=5` four tasks are empty and one has size `2`;
and no task range is negative (`lo ≤ hi`) or exceeds `L`. -/
theorem targeted_block_structure (o : String) (L N : Nat) (h : 1 ≤ N) :
    (targetedTasks o L N =
      ((List.range (N - 1)).map (fun ii =>
        (⟨ii, out_file_tmp o ii, L / N * ii, L / N * (ii + 1)⟩ : RangeTask)))
        ++ [⟨N - 1, out_file_tmp o (N - 1), L / N * (N - 1), L⟩])
    ∧ ((targetedTasks o 10 3).map (fun t => t.hi - t.lo)) = [3, 3, 4]
    ∧ ((targetedTasks o 2 5).map (fun t => t.hi - t.lo)) = [0, 0, 0, 0, 2]
    ∧ List.Forall (fun t => t.lo ≤ t.hi ∧ t.hi ≤ L) (targetedTasks o L N) := by
  have hd : L / N * (N - 1) ≤ L :=
    le_trans (Nat.mul_le_mul_left _ (Nat.sub_le N 1)) (Nat.div_mul_le_self L N)
  have hsplit : List.range N = List.range' 0 (N - 1) ++ [N - 1] := by
    rw [List.range_eq_range', show N = (N - 1) + 1 by omega, List.range'_concat]
    simp
  have hstruct : targetedTasks o L N =
      ((List.range (N - 1)).map (fun ii =>
        (⟨ii, out_file_tmp o ii, L / N * ii, L / N * (ii + 1)⟩ : RangeTask)))
        ++ [⟨N - 1, out_file_tmp o (N - 1), L / N * (N - 1), L⟩] := by
    unfold targetedTasks
    rw [hsplit, List.map_append, List.range_eq_range']
    congr 1
    · apply List.map_congr_left
      intro i hi
      have hilt : i < N - 1 := by
        rcases List.mem_range'_1.mp hi with ⟨_, h2⟩
        omega
      rw [if_neg (by omega)]
    · simp
  refine ⟨hstruct, rfl, rfl, ?_⟩
  rw [List.forall_iff_forall_mem]
  intro t ht
  rw [hstruct] at ht
  rcases List.mem_append.mp ht with hl | hr
  · rcases List.mem_map.mp hl with ⟨ii, hii, rfl⟩
    have hilt : ii < N - 1 := List.mem_range.mp hii
    constructor
    · exact Nat.mul_le_mul_left _ (Nat.le_succ ii)
    · exact le_trans (Nat.mul_le_mul_left _ (by omega)) hd
  · rcases List.mem_singleton.mp hr with rfl
    exact ⟨hd, le_refl L⟩

/-- Witness for C4 at `o = "w.vcf"`, `L = 10`, `N = 3`. -/
theorem targeted_block_structure_witness :
    1 ≤ 3 ∧
    ((targetedTasks "w.vcf" 10 3 =
      ((List.range 2).map (fun ii =>
        (⟨ii, out_file_tmp "w.vcf" ii, 10 / 3 * ii, 10 / 3 * (ii + 1)⟩ : RangeTask)))
        ++ [⟨2, out_file_tmp "w.vcf" 2, 10 / 3 * 2, 10⟩])
    ∧ ((targetedTasks "w.vcf" 10 3).map (fun t => t.hi - t.lo)) = [3, 3, 4]
    ∧ ((targetedTasks "w.vcf" 2 5).map (fun t => t.hi - t.lo)) = [0, 0, 0, 0, 2]
    ∧ List.Forall (fun t => t.lo ≤ t.hi ∧ t.hi ≤ 10) (targetedTasks "w.vcf" 10 3)) :=
  ⟨by decide, targeted_block_structure "w.vcf" 10 3 (by decide)⟩

/-! ### C6 -/

/-- C6: in WholeGenome mode, exactly one task is produced per chromosome
of the chromosome list, in list order, with the chromosome name as
partition key (and the temp path derived from it); with no `--chrom`
override the list defaults to the names "1" through "22" in order. -/
theorem wholeGenome_one_task_per_chrom (o : String) (cs : List String) :
    ((wholeGenomeTasks o cs).map (fun t => t.chrom)) = cs
    ∧ wholeGenomeTasks o cs = cs.map (fun c => ⟨c, chr_out_file o c⟩)
    ∧ chrom_all_of none =
        ["1", "2", "3", "4", "5", "6", "7", "8", "9", "10", "11",
         "12", "13", "14", "15", "16", "17", "18", "19", "20", "21", "22"] := by
  refine ⟨?_, rfl, by decide⟩
  simp only [wholeGenomeTasks, List.map_map]
  exact List.map_id cs

/-! ### C7 -/

/-- C7: when the chromosome list has no duplicate names, the temp output
paths of all tasks are pairwise distinct (in both modes), and each is
computed deterministically as `final_output_path ++ ".temp_" ++ key ++
"_"` where the key is the chromosome name (WholeGenome) or the
zero-based task index rendered in decimal (TargetedList). -/
theorem temp_paths_distinct (o key : String) (cs : List String)
    (L N i : Nat) (hnd : cs.Nodup) :
    ((wholeGenomeTasks o cs).map (fun t => t.tempFile)).Nodup
    ∧ ((targetedTasks o L N).map (fun t => t.tempFile)).Nodup
    ∧ chr_out_file o key = o ++ ".temp_" ++ key ++ "_"
    ∧ out_file_tmp o i = o ++ ".temp_" ++ Nat.repr i ++ "_" := by
  refine ⟨?_, ?_, rfl, rfl⟩
  · have : ((wholeGenomeTasks o cs).map (fun t => t.tempFile)) =
        cs.map (chr_out_file o) := by
      simp [wholeGenomeTasks, List.map_map]
    rw [this]
    exact hnd.map (chr_out_file_injective o)
  · have : ((targetedTasks o L N).map (fun t => t.tempFile)) =
        (List.range N).map (out_file_tmp o) := by
      unfold targetedTasks
      rw [List.map_map]
      apply List.map_congr_left
      intro i _
      by_cases hi : i = N - 1 <;> simp [hi]
    rw [this]
    exact (List.nodup_range N).map (out_file_tmp_injective o)

/-- Witness for C7 at a concrete duplicate-free chromosome list. -/
theorem temp_paths_distinct_witness :
    (["1", "2", "X"] : List String).Nodup ∧
    (((wholeGenomeTasks "res.vcf" ["1", "2", "X"]).map
        (fun t => t.tempFile)).Nodup
    ∧ ((targetedTasks "res.vcf" 9 4).map (fun t => t.tempFile)).Nodup
    ∧ chr_out_file "res.vcf" "MT" = "res.vcf" ++ ".temp_" ++ "MT" ++ "_"
    ∧ out_file_tmp "res.vcf" 3 = "res.vcf" ++ ".temp_" ++ Nat.repr 3 ++ "_") :=
  ⟨by decide, temp_paths_distinct "res.vcf" "MT" ["1", "2", "X"] 9 4 3 (by decide)⟩

/-! ### Order facts about the barcode comparator -/

lemma charListLe_total : ∀ (as bs : List Char),
    charListLe as bs = true ∨ charListLe bs as = true := by
  intro as
  induction as with
  | nil => intro bs; left; rfl
  | cons a as ih =>
    intro bs
    cases bs with
    | nil => right; rfl
    | cons b bs =>
      by_cases h1 : a.toNat < b.toNat
      · left; simp [charListLe, h1]
      · by_cases h2 : b.toNat < a.toNat
        · right; simp [charListLe, h2]
        · rcases ih bs with h | h
          · left; simp [charListLe, h1, h2, h]
          · right; simp [charListLe, h1, h2, h]

lemma charListLe_trans : ∀ (as bs cs : List Char),
    charListLe as bs = true → charListLe bs cs = true →
    charListLe as cs = true := by
  intro as
  induction as with
  | nil => intros; rfl
  | cons a as ih =>
    intro bs cs h1 h2
    cases bs with
    | nil => simp [charListLe] at h1
    | cons b bs =>
      cases cs with
      | nil => simp [charListLe] at h2
      | cons c cs =>
        simp only [charListLe] at h1 h2 ⊢
        by_cases hab : a.toNat < b.toNat
        · by_cases hbc : b.toNat < c.toNat
          · rw [if_pos (by omega)]
          · by_cases hcb : c.toNat < b.toNat
            · rw [if_neg hbc, if_pos hcb] at h2
              simp at h2
            · rw [if_pos (by omega)]
        · by_cases hba : b.toNat < a.toNat
          · rw [if_neg hab, if_pos hba] at h1
            simp at h1
          · by_cases hbc : b.toNat < c.toNat
            · rw [if_pos (by omega)]
            · by_cases hcb : c.toNat < b.toNat
              · rw [if_neg hbc, if_pos hcb] at h2
                simp at h2
              · rw [if_neg hab, if_neg hba] at h1
                rw [if_neg hbc, if_neg hcb] at h2
                rw [if_neg (by omega), if_neg (by omega)]
                exact ih bs cs h1 h2

/-! ### C3 -/

/-- C3 counterexample: on the input lines of the claim the code yields
`["AAA", "AAA", "BBB"]` (the duplicate survives), not the deduplicated
`["AAA", "BBB"]`. -/
theorem barcodes_not_dedup_cex :
    loadBarcodes ["AAA-1", "BBB-2", "AAA-1"] ≠ ["AAA", "BBB"] := by decide

/-- C3 (amended): for every barcode input file, the barcode list is
built by stripping each raw line to its first `-`-separated segment and
then sorting ascending; duplicates are NOT removed, so the input lines
`["AAA-1", "BBB-2", "AAA-1"]` yield `["AAA", "AAA", "BBB"]`.  The result
is a permutation of the stripped lines and is sorted. -/
theorem barcodes_stripped_sorted_not_dedup (lines : List String) :
    loadBarcodes ["AAA-1", "BBB-2", "AAA-1"] = ["AAA", "AAA", "BBB"]
    ∧ (loadBarcodes lines).Perm (lines.map barcodeOf)
    ∧ List.Sorted (fun a b => strLe a b = true) (loadBarcodes lines) := by
  refine ⟨by decide, List.perm_insertionSort _ _, ?_⟩
  haveI : IsTotal String (fun a b => strLe a b = true) :=
    ⟨fun a b => charListLe_total a.data b.data⟩
  haveI : IsTrans String (fun a b => strLe a b = true) :=
    ⟨fun a b c => charListLe_trans a.data b.data c.data⟩
  exact List.sorted_insertionSort _ _

/-! ### C9 -/

/-- C9: supplying the candidate-variant file argument as the literal
string "None" behaves exactly as if no such file was supplied: the
resolution is WholeGenome, it does not depend on the file-existence
oracle (the path is never checked, the parser never invoked), and the
whole `main` trace coincides with the no-region-file trace. -/
theorem regionsVCF_literal_None (fe fe₂ : String → Bool)
    (argv : List String) (opts : Opts) (w : World) :
    resolveRegionFile fe (some "None") = RegionResolution.wholeGenome
    ∧ resolveRegionFile fe (some "None") = resolveRegionFile fe₂ none
    ∧ mainTrace argv { opts with region_file := some "None" } w =
        mainTrace argv { opts with region_file := none } w := by
  refine ⟨rfl, rfl, ?_⟩
  rfl

/-! ### C2 -/

/-- C2 counterexample: with four tasks of which task 2 failed and the
other three wrote their temp files, `main` raises without invoking the
merger, but the three temp files are NOT deleted: the claimed
conjunction is false. -/
theorem failed_task_temps_not_deleted_cex :
    ¬ (let r := collectAndMerge
        [TaskStatus.success, TaskStatus.success,
         TaskStatus.failed "pileup error", TaskStatus.success]
        ["out.vcf.temp_0_", "out.vcf.temp_1_", "out.vcf.temp_3_"]
       r.mergeInvoked = false ∧ r.finalCreated = false ∧
         r.tempsOnDisk = []) := by decide

/-- C2 (amended): if any task fails, the merger is not invoked and no
final output file is created, but the temp files produced by the other
tasks are NOT deleted: they all remain on disk when the job failure is
surfaced (the exception re-raised by the first failed result handle). -/
theorem failed_task_aborts_without_cleanup (results : List TaskStatus)
    (temps : List String) (h : results.any TaskStatus.isFailed = true) :
    collectAndMerge results temps =
      ⟨false, false, temps, true⟩ := by
  unfold collectAndMerge
  rw [if_pos h]

/-- Witness for the amended C2 at the counterexample scenario. -/
theorem failed_task_aborts_without_cleanup_witness :
    ([TaskStatus.success, TaskStatus.success,
      TaskStatus.failed "pileup error", TaskStatus.success].any
        TaskStatus.isFailed) = true
    ∧ collectAndMerge
        [TaskStatus.success, TaskStatus.success,
         TaskStatus.failed "pileup error", TaskStatus.success]
        ["out.vcf.temp_0_", "out.vcf.temp_1_", "out.vcf.temp_3_"] =
      ⟨false, false,
       ["out.vcf.temp_0_", "out.vcf.temp_1_", "out.vcf.temp_3_"], true⟩ :=
  ⟨by decide, failed_task_aborts_without_cleanup _ _ (by decide)⟩

/-! ### Pool-model lemmas -/

lemma lookup_asyncEvents (outcome : Nat → TaskStatus) :
    ∀ (σ : List Nat) (i : Nat), i ∈ σ →
      (asyncEvents outcome σ).lookup i = some (outcome i) := by
  intro σ
  induction σ with
  | nil => intro i hi; cases hi
  | cons j σ ih =>
    intro i hi
    rcases List.mem_cons.mp hi with rfl | hmem
    · simp [asyncEvents, List.lookup_cons]
    · by_cases hij : i = j
      · subst hij; simp [asyncEvents, List.lookup_cons]
      · have hne : (i == j) = false := beq_eq_false_iff_ne.mpr hij
        simp only [asyncEvents, List.map_cons, List.lookup_cons, hne]
        exact ih i hmem

/-- Once the completion sequence covers all `n` tasks, the dispatch-order
`res.get()` pass recovers exactly the per-task outcomes, whatever the
completion order was. -/
lemma collectedResults_eq (outcome : Nat → TaskStatus) (n : Nat)
    (σ : List Nat) (hperm : σ.Perm (List.range n)) :
    collectedResults n (asyncEvents outcome σ) =
      (List.range n).map outcome := by
  unfold collectedResults
  apply List.map_congr_left
  intro i hi
  unfold resGet
  rw [lookup_asyncEvents outcome σ i (hperm.mem_iff.mpr hi)]
  rfl

/-! ### C5 -/

/-- C5: for any job, two runs whose tasks complete in different orders
(any two permutations of the task indices, e.g. reverse of dispatch
order) produce the same observable artifacts: the same path list handed
to the merger — which is `none` (failure) or exactly the dispatch-order
`out_files` — and hence the same record order in the merged output. -/
theorem merge_order_independent_of_completion (out_files : List String)
    (outcome : Nat → TaskStatus) (contents : String → List String)
    (σ τ : List Nat)
    (hσ : σ.Perm (List.range out_files.length))
    (hτ : τ.Perm (List.range out_files.length)) :
    runWithCompletion out_files outcome contents σ =
      runWithCompletion out_files outcome contents τ
    ∧ ((runWithCompletion out_files outcome contents σ).mergerPaths = none
       ∨ (runWithCompletion out_files outcome contents σ).mergerPaths =
           some out_files) := by
  constructor
  · simp only [runWithCompletion]
    rw [collectedResults_eq outcome _ σ hσ, collectedResults_eq outcome _ τ hτ]
  · simp only [runWithCompletion]
    rw [collectedResults_eq outcome _ σ hσ]
    split
    · left; rfl
    · right; rfl

/-- Witness for C5: two tasks, both succeeding, completing in reverse
dispatch order versus forward order. -/
theorem merge_order_independent_of_completion_witness :
    ([1, 0] : List Nat).Perm (List.range (["p0", "p1"] : List String).length)
    ∧ ([0, 1] : List Nat).Perm (List.range (["p0", "p1"] : List String).length)
    ∧ (runWithCompletion ["p0", "p1"] (fun _ => TaskStatus.success)
          (fun _ => ["rec"]) [1, 0] =
        runWithCompletion ["p0", "p1"] (fun _ => TaskStatus.success)
          (fun _ => ["rec"]) [0, 1]
      ∧ ((runWithCompletion ["p0", "p1"] (fun _ => TaskStatus.success)
            (fun _ => ["rec"]) [1, 0]).mergerPaths = none
         ∨ (runWithCompletion ["p0", "p1"] (fun _ => TaskStatus.success)
              (fun _ => ["rec"]) [1, 0]).mergerPaths = some ["p0", "p1"])) :=
  ⟨by decide, by decide,
   merge_order_independent_of_completion ["p0", "p1"]
     (fun _ => TaskStatus.success) (fun _ => ["rec"]) [1, 0] [0, 1]
     (by decide) (by decide)⟩

/-! ### C8 -/

lemma wgSeqLoop_all_success (engine : ChromTask → TaskStatus) :
    ∀ (ts : List ChromTask), (∀ t ∈ ts, engine t = TaskStatus.success) →
      wgSeqLoop engine ts = (ts.map (fun t => t.tempFile), ts, false) := by
  intro ts
  induction ts with
  | nil => intro _; rfl
  | cons t ts ih =>
    intro h
    have ht : engine t = TaskStatus.success := h t (by simp)
    simp only [wgSeqLoop, ht, ih (fun u hu => h u (by simp [hu])),
      List.map_cons]

/-- C8 counterexample: the claim fails in both of its parts.  With a
candidate-variant file given (TargetedList mode) and worker count 1 the
code still creates a `multiprocessing` pool (line 162 runs
unconditionally), so "no pool whenever N = 1" is false; and on a
concrete run where the first of two tasks fails, the sequential
execution is NOT equivalent to the pooled one: the sequential loop
raises at the first failure having produced only the temp path of the
failing task, while the pooled path dispatches every task before the
failure surfaces, so "produces the same temp files" is false as an
unconditional statement. -/
theorem nproc_one_claim_cex :
    ¬ (usesPool true 1 = false)
    ∧ wgSequential "m.vcf" ["1", "2"]
        (fun t => if t.chrom = "1" then TaskStatus.failed "pileup error"
                  else TaskStatus.success)
        (fun _ => []) ≠
      wgPooled "m.vcf" ["1", "2"]
        (fun t => if t.chrom = "1" then TaskStatus.failed "pileup error"
                  else TaskStatus.success)
        (fun _ => []) := by decide

/-- C8 (amended): when the worker count N equals 1 in WholeGenome mode,
the tasks are executed sequentially on the caller with no pool, and on
runs where every task succeeds this sequential execution produces the
same temp files, the same call sequence and the same merged result as
the pooled execution; in TargetedList mode, a pool is created even when
N equals 1 (with the same contract). -/
theorem nproc_one_sequential_equiv (o : String) (cs : List String)
    (engine : ChromTask → TaskStatus) (contents : String → List String)
    (hall : ∀ t ∈ wholeGenomeTasks o cs, engine t = TaskStatus.success) :
    usesPool false 1 = false
    ∧ usesPool true 1 = true
    ∧ wgSequential o cs engine contents = wgPooled o cs engine contents := by
  refine ⟨rfl, rfl, ?_⟩
  simp only [wgSequential, wgPooled]
  rw [wgSeqLoop_all_success engine (wholeGenomeTasks o cs) hall]
  have hfail : ((wholeGenomeTasks o cs).map engine).any TaskStatus.isFailed
      = false := by
    rw [List.any_eq_false]
    intro x hx
    rcases List.mem_map.mp hx with ⟨t, ht, rfl⟩
    rw [hall t ht]
    decide
  simp [hfail]

/-- Witness for the amended C8 at one chromosome with a succeeding
engine. -/
theorem nproc_one_sequential_equiv_witness :
    (∀ t ∈ wholeGenomeTasks "f.vcf" ["1"],
        (fun _ => TaskStatus.success) t = TaskStatus.success)
    ∧ (usesPool false 1 = false
      ∧ usesPool true 1 = true
      ∧ wgSequential "f.vcf" ["1"] (fun _ => TaskStatus.success)
          (fun _ => ["r"]) =
        wgPooled "f.vcf" ["1"] (fun _ => TaskStatus.success)
          (fun _ => ["r"])) :=
  ⟨by decide,
   nproc_one_sequential_equiv "f.vcf" ["1"] (fun _ => TaskStatus.success)
     (fun _ => ["r"]) (by decide)⟩

/-! ### C10 -/

/-- C10: invoked with zero command-line arguments, the program prints a
welcome/help message and exits with status 1; the trace contains only
the two print events, hence no input validation, no file read, no task
dispatch and no output creation precede the exit. -/
theorem empty_argv_welcome_and_exit (opts : Opts) (w : World) :
    mainTrace [] opts w =
      ([.printed "Welcome to cellSNP!\n",
        .printed "use -h or --help for help on argument."], .exited 1)
    ∧ ((mainTrace [] opts w).1.all
        (fun e => match e with | .printed _ => true | _ => false)) = true := by
  exact ⟨rfl, rfl⟩

end CellSNP
